import Mathlib

/-!
# The Backblaze B2 adapter of `pkg/object/b2.go`

A shallow embedding of the `b2client` adapter.  The adapter talks to an
external provider SDK (`github.com/kurin/blazer/b2`) and to the Go standard
library; neither is part of the adapter, so both are taken as parameters:

* the provider is a record of response functions (`Provider`); every response
  may depend on the whole history of calls issued so far, and every call the
  adapter issues is appended to that history (`List Call`);
* `url.ParseRequestURI` is a parameter of `newB2`.

Go strings are modelled by Lean strings; `strings.HasSuffix` and
`strings.Split` are only ever applied with the one-byte ASCII separators
`"/"` and `"."`, for which the byte-wise and the character-wise readings agree.
`int` is the 64-bit `int` of the platforms the program is built for.
-/

namespace object

/-! ## Data model -/

/-- Go `error` values as the adapter distinguishes them: the sentinel `io.EOF`
and every other error, identified by its message. A nil error is `none` in
`Option Error`. -/
inductive Error where
  | EOF
  | other (msg : String)
  deriving DecidableEq, Repr

deriving instance DecidableEq for Except

/-- Rendering of an error by the `%v` verb. -/
def Error.text : Error → String
  | .EOF => "EOF"
  | .other msg => msg

/-- The fields of `b2.Attrs` the adapter reads. -/
structure Attrs where
  Name : String
  Size : Int
  UploadTimestamp : Int
  deriving DecidableEq, Repr

/-- The `obj` struct: key, size, modification time and directory flag. -/
structure obj where
  key : String
  size : Int
  mtime : Int
  isDir : Bool
  deriving DecidableEq, Repr

/-- An `Object` interface value: `some o` is `&obj{...}`, `none` is the nil
interface value (the zero value of a slot of `make([]Object, n)`). -/
abbrev Object := Option obj

/-- The provider's `b2.Cursor`. The adapter only ever sets `Prefix`; the rest of
the provider's continuation state is kept in `state`, whose zero value is the
empty string. -/
structure Cursor where
  Prefix : String
  state : String := ""
  deriving DecidableEq, Repr

/-- A `*b2.Object` handle, as obtained from `bucket.Object(key)` or from a
listing; it is identified by the name it carries. -/
structure B2Object where
  name : String
  deriving DecidableEq, Repr

/-- An `io.Reader` handed to `Put`: either a reader supplied by the caller or
the range reader `obj.NewRangeReader(ctx, off, limit)` of the provider. -/
inductive Reader where
  | source (id : Nat)
  | range (key : String) (off limit : Int)
  deriving DecidableEq, Repr

/-- The calls the adapter issues to the provider SDK. -/
inductive Call where
  | attrs (name : String)
  | newRangeReader (key : String) (off limit : Int)
  | closeReader (r : Reader)
  | newWriter (key : String)
  | readFrom (key : String) (data : Reader)
  | closeWriter (key : String)
  | delete (key : String)
  | listCurrentObjects (count : Int) (cursor : Option Cursor)
  | newClient (account key : String)
  | bucket (name : String)
  | newBucket (name : String) (type : String)
  deriving DecidableEq, Repr

/-- What `bucket.ListCurrentObjects` returns: the raw entries, the cursor for
the next page (possibly nil) and the error (possibly nil). -/
structure ListResponse where
  objects : List B2Object
  next : Option Cursor
  err : Option Error
  deriving DecidableEq, Repr

/-- The provider SDK. Each response is a function of the history of calls
issued before it and of the call's arguments. -/
structure Provider where
  Attrs : List Call → String → Except Error Attrs
  ReadFrom : List Call → String → Reader → Option Error
  CloseWriter : List Call → String → Option Error
  Delete : List Call → String → Option Error
  ListCurrentObjects : List Call → Int → Option Cursor → ListResponse
  NewClient : List Call → String → String → Option Error
  Bucket : List Call → String → Option Error
  NewBucket : List Call → String → String → Option Error

/-- The mutable part of `b2client`: the bucket it is bound to (by name) and the
stored listing cursor. -/
structure b2client where
  bucket : String
  cursor : Option Cursor
  deriving DecidableEq, Repr

/-! ## Library functions -/

/-- Go `strings.HasSuffix(s, suffix)`. -/
def HasSuffix (s suffix : String) : Bool :=
  decide (suffix.data.length ≤ s.data.length) &&
    (s.data.drop (s.data.length - suffix.data.length) == suffix.data)

/-- Go `strings.HasPrefix(s, prefix)`. -/
def HasPrefix (s pre : String) : Bool :=
  decide (pre.data.length ≤ s.data.length) && (s.data.take pre.data.length == pre.data)

/-- The loop of Go `strings.Split` for a non-empty separator: `skip` counts the
characters of a separator occurrence still to be dropped, `cur` is the current
piece, reversed. -/
def splitLoop (sep : List Char) : Nat → List Char → List Char → List (List Char)
  | _, cur, [] => [cur.reverse]
  | skip + 1, cur, _ :: rest => splitLoop sep skip cur rest
  | 0, cur, c :: rest =>
    if sep.isPrefixOf (c :: rest) then
      cur.reverse :: splitLoop sep (sep.length - 1) [] rest
    else
      splitLoop sep 0 (c :: cur) rest

/-- Go `strings.Split(s, sep)`: the substrings of `s` between the occurrences of
`sep`; with an empty separator, the characters of `s`. -/
def Split (s sep : String) : List String :=
  if sep.data.isEmpty then s.data.map (fun c => String.mk [c])
  else (splitLoop sep.data 0 [] s.data).map String.mk

/-- The conversion `int(limit)` of an `int64` to the 64-bit `int`. -/
def int64ToInt (x : Int) : Int := (x + 2 ^ 63) % 2 ^ 64 - 2 ^ 63

/-! ## The adapter -/

/-- The descriptor `&obj{attr.Name, attr.Size, attr.UploadTimestamp,
strings.HasSuffix(attr.Name, "/")}` built by `Head` and by `List`. -/
def mkObj (attr : Attrs) : obj :=
  { key := attr.Name, size := attr.Size, mtime := attr.UploadTimestamp,
    isDir := HasSuffix attr.Name "/" }

/-- The result of an adapter operation: the returned value, the adapter after
the call and the history of provider calls after the call. -/
structure Outcome (α : Type) where
  ret : α
  client : b2client
  hist : List Call
  deriving DecidableEq

/-- `func (c *b2client) String() string`. -/
def b2client_String (c : b2client) : String := "b2://" ++ c.bucket ++ "/"

/-- `func (c *b2client) Create() error`. -/
def b2client_Create (_c : b2client) : Option Error := none

/-- `func (c *b2client) Head(key string) (Object, error)`. -/
def b2client_Head (P : Provider) (h : List Call) (c : b2client) (key : String) :
    Outcome (Except Error Object) :=
  let h1 := h ++ [Call.attrs key]
  match P.Attrs h key with
  | .error err => ⟨.error err, c, h1⟩
  | .ok attr => ⟨.ok (some (mkObj attr)), c, h1⟩

/-- `func (c *b2client) Get(key string, off, limit int64) (io.ReadCloser, error)`. -/
def b2client_Get (P : Provider) (h : List Call) (c : b2client) (key : String)
    (off limit : Int) : Outcome (Except Error Reader) :=
  let h1 := h ++ [Call.attrs key]
  match P.Attrs h key with
  | .error err => ⟨.error err, c, h1⟩
  | .ok _ => ⟨.ok (Reader.range key off limit), c, h1 ++ [Call.newRangeReader key off limit]⟩

/-- `func (c *b2client) Put(key string, data io.Reader) error`. -/
def b2client_Put (P : Provider) (h : List Call) (c : b2client) (key : String)
    (data : Reader) : Outcome (Option Error) :=
  let h1 := h ++ [Call.newWriter key]
  let h2 := h1 ++ [Call.readFrom key data]
  let h3 := h2 ++ [Call.closeWriter key]
  match P.ReadFrom h1 key data with
  | some err => ⟨some err, c, h3⟩
  | none => ⟨P.CloseWriter h2 key, c, h3⟩

/-- `func (c *b2client) Copy(dst, src string) error`; the deferred `in.Close()`
runs after `Put` has returned. -/
def b2client_Copy (P : Provider) (h : List Call) (c : b2client) (dst src : String) :
    Outcome (Option Error) :=
  let g := b2client_Get P h c src 0 (-1)
  match g.ret with
  | .error err => ⟨some err, g.client, g.hist⟩
  | .ok rd =>
    let p := b2client_Put P g.hist g.client dst rd
    ⟨p.ret, p.client, p.hist ++ [Call.closeReader rd]⟩

/-- `func (c *b2client) Delete(key string) error`. -/
def b2client_Delete (P : Provider) (h : List Call) (c : b2client) (key : String) :
    Outcome (Option Error) :=
  ⟨P.Delete h key, c, h ++ [Call.delete key]⟩

/-- The loop `for i := 0; i < n; i++` of `List` over the raw entries: slot `i`
of `objs` is assigned the descriptor when `objects[i].Attrs(ctx)` succeeds and
keeps its zero value otherwise. -/
def resolveEntries (P : Provider) : List Call → List B2Object → List Object × List Call
  | h, [] => ([], h)
  | h, o :: os =>
    let slot : Object :=
      match P.Attrs h o.name with
      | .ok attr => some (mkObj attr)
      | .error _ => none
    let r := resolveEntries P (h ++ [Call.attrs o.name]) os
    (slot :: r.1, r.2)

/-- The clamp `if limit > 1000 { limit = 1000 }`. -/
def clampLimit (limit : Int) : Int := if limit > 1000 then 1000 else limit

/-- The cursor selection `if marker != "" { cursor = c.cursor } else
{ cursor = &b2.Cursor{Prefix: prefix} }`. -/
def selectCursor (c : b2client) (pre marker : String) : Option Cursor :=
  if marker ≠ "" then c.cursor else some { Prefix := pre }

/-- The provider's answer to the listing request of `List`:
`c.bucket.ListCurrentObjects(ctx, int(limit), cursor)` after the clamp and the
cursor selection. -/
def listResponse (P : Provider) (h : List Call) (c : b2client) (pre marker : String)
    (limit : Int) : ListResponse :=
  P.ListCurrentObjects h (int64ToInt (clampLimit limit)) (selectCursor c pre marker)

/-- `func (c *b2client) List(prefix, marker string, limit int64) ([]Object, error)`. -/
def b2client_List (P : Provider) (h : List Call) (c : b2client) (pre marker : String)
    (limit : Int) : Outcome (Except Error (List Object)) :=
  let limit := clampLimit limit
  let cursor := selectCursor c pre marker
  let c1 : b2client := { c with cursor := none }
  let r := P.ListCurrentObjects h (int64ToInt limit) cursor
  let h1 := h ++ [Call.listCurrentObjects (int64ToInt limit) cursor]
  let page : Outcome (Except Error (List Object)) :=
    let objs := resolveEntries P h1 r.objects
    ⟨.ok objs.1, { c1 with cursor := r.next }, objs.2⟩
  match r.err with
  | none => page
  | some err => if err ≠ Error.EOF then ⟨.error err, c1, h1⟩ else page

/-- The fields of `url.URL` that `newB2` reads. -/
structure URL where
  Host : String
  deriving DecidableEq, Repr

/-- How a call of `newB2` ends: with an adapter, with an error, or with the
run-time panic of an out-of-range index. -/
inductive Built where
  | ok (c : b2client)
  | error (err : Error)
  | indexPanic
  deriving DecidableEq, Repr

/-- `func newB2(endpoint, account, key string) (ObjectStorage, error)`, with
`url.ParseRequestURI` as the parameter `parse`. The result is paired with the
history of provider calls after the call. -/
def newB2 (parse : String → Except Error URL) (P : Provider) (h : List Call)
    (endpoint account key : String) : Built × List Call :=
  match parse endpoint with
  | .error err =>
    (.error (.other ("Invalid endpoint: " ++ endpoint ++ ", error: " ++ err.text)), h)
  | .ok uri =>
    let hostParts := Split uri.Host "."
    match hostParts with
    | [] => (.indexPanic, h)
    | bucketName :: _ =>
      let h1 := h ++ [Call.newClient account key]
      match P.NewClient h account key with
      | some err => (.error (.other ("Failed to create client: " ++ err.text)), h1)
      | none =>
        let h2 := h1 ++ [Call.bucket bucketName]
        match P.Bucket h1 bucketName with
        | none => (.ok { bucket := bucketName, cursor := none }, h2)
        | some _ =>
          let h3 := h2 ++ [Call.newBucket bucketName "allPrivate"]
          match P.NewBucket h2 bucketName "allPrivate" with
          | some err => (.error (.other ("Failed to create bucket: " ++ err.text)), h3)
          | none => (.ok { bucket := bucketName, cursor := none }, h3)

/-! ## The caller's pagination protocol and the properties stated about it -/

/-- The protocol of a caller that lists a prefix to the end: `List(prefix, "", limit)`
first, then `List(prefix, m, limit)` with the marker `m = nextMarker page` chosen
from the previous page, until a page is empty. The pages are concatenated;
`none` means that the fuel ran out or that a call returned an error. -/
def listAll (P : Provider) (nextMarker : List Object → String) (pre : String) (limit : Int) :
    Nat → List Call → b2client → String → Option (List Object)
  | 0, _, _, _ => none
  | fuel + 1, h, c, marker =>
    let r := b2client_List P h c pre marker limit
    match r.ret with
    | .error _ => none
    | .ok page =>
      if page.isEmpty then some []
      else (listAll P nextMarker pre limit fuel r.hist r.client (nextMarker page)).map
        (fun more => page ++ more)

/-- The first dot-separated label of a host: its longest prefix without a dot. -/
def firstLabel (host : String) : String :=
  String.mk (host.data.takeWhile (fun ch => ch != '.'))

/-- The listing requests among the calls of a history, in order. -/
def listRequests (calls : List Call) : List (Int × Option Cursor) :=
  calls.filterMap fun call =>
    match call with
    | .listCurrentObjects count cursor => some (count, cursor)
    | _ => none

/-- A call that writes to the bucket. -/
def Call.isWrite : Call → Bool
  | .newWriter _ => true
  | .readFrom _ _ => true
  | .closeWriter _ => true
  | .delete _ => true
  | .newBucket _ _ => true
  | _ => false

/-- The marker of a caller that resumes after the last key of the previous
page; empty when the page is empty or ends with a nil `Object`. -/
def lastKey (page : List Object) : String :=
  match page.getLast? with
  | some (some o) => o.key
  | _ => ""

/-! ## Concrete providers -/

/-- An in-memory provider over a fixed bucket, answering as the SDK does:
attributes resolve for the stored names; a listing returns the next `count`
stored objects under the cursor's prefix, where the cursor's `state` counts (by
its length) the objects already returned and a nil cursor is taken as a zero
cursor (empty prefix, from the start); the next cursor is nil when nothing is
left after the page, and `io.EOF` is returned when the page is empty or the
next cursor is nil. Writes are accepted and ignored. -/
def memProvider (bucket : List Attrs) : Provider where
  Attrs := fun _ name =>
    match bucket.find? (fun a => a.Name == name) with
    | some a => .ok a
    | none => .error (.other "not found")
  ReadFrom := fun _ _ _ => none
  CloseWriter := fun _ _ => none
  Delete := fun _ _ => none
  ListCurrentObjects := fun _ count cursor =>
    let cur : Cursor := cursor.getD { Prefix := "" }
    let todo := (bucket.filter (fun a => HasPrefix a.Name cur.Prefix)).drop cur.state.data.length
    let k := count.toNat
    let objects : List B2Object := (todo.take k).map (fun a => ⟨a.Name⟩)
    let next : Option Cursor :=
      if todo.length ≤ k then none
      else some ⟨cur.Prefix, String.mk (List.replicate (cur.state.data.length + k) 'x')⟩
    ⟨objects, next, if objects.isEmpty || next.isNone then some Error.EOF else none⟩
  NewClient := fun _ _ _ => none
  Bucket := fun _ _ => none
  NewBucket := fun _ _ _ => none

/-- A provider whose listing returns the two entries `a/1` and `a/2` and whose
attribute fetch fails for `a/2` (and for every name other than `a/1`). -/
def flakyProvider : Provider where
  Attrs := fun _ name =>
    if name = "a/1" then .ok { Name := "a/1", Size := 3, UploadTimestamp := 7 }
    else .error (.other "timeout")
  ReadFrom := fun _ _ _ => some (.other "read failed")
  CloseWriter := fun _ _ => none
  Delete := fun _ _ => none
  ListCurrentObjects := fun _ _ _ => ⟨[⟨"a/1"⟩, ⟨"a/2"⟩], none, some Error.EOF⟩
  NewClient := fun _ _ _ => none
  Bucket := fun _ _ => some (.other "no such bucket")
  NewBucket := fun _ _ _ => none

/-- A stand-in for `url.ParseRequestURI` on two endpoints. -/
def sampleParse (endpoint : String) : Except Error URL :=
  if endpoint = "https://jfs.s3.example.com/" then .ok { Host := "jfs.s3.example.com" }
  else .error (.other "invalid URI for request")

/-- A small bucket. -/
def sampleBucket : List Attrs :=
  [⟨"a/1.txt", 3, 10⟩, ⟨"a/2.txt", 5, 11⟩, ⟨"b/1.txt", 1, 12⟩, ⟨"d/", 0, 13⟩]

/-! ## Auxiliary facts -/

theorem listRequests_append (a b : List Call) :
    listRequests (a ++ b) = listRequests a ++ listRequests b := by
  simp [listRequests, List.filterMap_append]

theorem resolveEntries_length (P : Provider) (os : List B2Object) (h : List Call) :
    (resolveEntries P h os).1.length = os.length := by
  induction os generalizing h with
  | nil => simp [resolveEntries]
  | cons o os ih => simp [resolveEntries, ih]

theorem resolveEntries_hist (P : Provider) (os : List B2Object) (h : List Call) :
    (resolveEntries P h os).2 = h ++ os.map (fun o => Call.attrs o.name) := by
  induction os generalizing h with
  | nil => simp [resolveEntries]
  | cons o os ih => simp [resolveEntries, ih]

theorem listRequests_attrs (os : List B2Object) :
    listRequests (os.map (fun o => Call.attrs o.name)) = [] := by
  induction os with
  | nil => simp [listRequests]
  | cons o os ih => simp [listRequests]

theorem int64ToInt_eq (x : Int) (hlo : -2 ^ 63 ≤ x) (hhi : x < 2 ^ 63) : int64ToInt x = x := by
  unfold int64ToInt
  rw [Int.emod_eq_of_lt (by omega) (by omega)]
  omega

theorem clampLimit_eq_min (limit : Int) : clampLimit limit = min limit 1000 := by
  unfold clampLimit
  split <;> omega

/-- The history after `List`: the one listing request, then one attribute fetch
per raw entry when the page is built. -/
theorem b2client_List_hist (P : Provider) (h : List Call) (c : b2client) (pre marker : String)
    (limit : Int) :
    ∃ tail, (b2client_List P h c pre marker limit).hist =
        h ++ Call.listCurrentObjects (int64ToInt (clampLimit limit)) (selectCursor c pre marker)
          :: tail ∧ listRequests tail = [] := by
  unfold b2client_List
  simp only []
  split
  · refine ⟨(P.ListCurrentObjects h (int64ToInt (clampLimit limit))
      (selectCursor c pre marker)).objects.map (fun o => Call.attrs o.name), ?_,
      listRequests_attrs _⟩
    simp only [resolveEntries_hist, List.append_assoc, List.singleton_append]
  · split
    · exact ⟨[], by simp, rfl⟩
    · refine ⟨(P.ListCurrentObjects h (int64ToInt (clampLimit limit))
        (selectCursor c pre marker)).objects.map (fun o => Call.attrs o.name), ?_,
        listRequests_attrs _⟩
      simp only [resolveEntries_hist, List.append_assoc, List.singleton_append]

theorem b2client_List_requests (P : Provider) (h : List Call) (c : b2client)
    (pre marker : String) (limit : Int) :
    listRequests (b2client_List P h c pre marker limit).hist =
      listRequests h ++ [(int64ToInt (clampLimit limit), selectCursor c pre marker)] := by
  obtain ⟨tail, ht, hl⟩ := b2client_List_hist P h c pre marker limit
  rw [ht, listRequests_append]
  simp [listRequests, hl] at *
  exact hl

/-- The three ways `List` can go, by the error of the provider's answer. -/
theorem b2client_List_cases (P : Provider) (h : List Call) (c : b2client)
    (pre marker : String) (limit : Int) :
    let resp := listResponse P h c pre marker limit
    let h1 := h ++ [Call.listCurrentObjects (int64ToInt (clampLimit limit))
      (selectCursor c pre marker)]
    ((resp.err = none ∨ resp.err = some Error.EOF) ∧
      b2client_List P h c pre marker limit =
        ⟨.ok (resolveEntries P h1 resp.objects).1, { c with cursor := resp.next },
          (resolveEntries P h1 resp.objects).2⟩) ∨
    (∃ msg, resp.err = some (Error.other msg) ∧
      b2client_List P h c pre marker limit =
        ⟨.error (Error.other msg), { c with cursor := none }, h1⟩) := by
  intro resp h1
  unfold b2client_List
  simp only []
  have hresp : P.ListCurrentObjects h (int64ToInt (clampLimit limit))
      (selectCursor c pre marker) = resp := rfl
  rw [hresp]
  cases he : resp.err with
  | none => left; exact ⟨Or.inl rfl, rfl⟩
  | some e =>
    cases e with
    | EOF => left; exact ⟨Or.inr rfl, by simp [h1]⟩
    | other msg => right; exact ⟨msg, rfl, by simp [h1]⟩

/-! ## Cursor selection, store-back, end of listing, limit clamp -/

/-- C3. Cursor selection in `List`: with the empty marker the one listing request
carries a fresh cursor with the prefix argument and the whole outcome does not
depend on the stored cursor; with a non-empty marker the request carries the
stored cursor, and two non-empty markers give the same outcome. -/
theorem List_cursor_selection (P : Provider) (h : List Call) (c : b2client) (pre : String)
    (limit : Int) :
    listRequests (b2client_List P h c pre "" limit).hist =
        listRequests h ++ [(int64ToInt (clampLimit limit), some { Prefix := pre, state := "" })] ∧
    (∀ stored : Option Cursor,
      b2client_List P h { c with cursor := stored } pre "" limit =
        b2client_List P h c pre "" limit) ∧
    (∀ marker : String, marker ≠ "" →
      listRequests (b2client_List P h c pre marker limit).hist =
        listRequests h ++ [(int64ToInt (clampLimit limit), c.cursor)]) ∧
    (∀ m1 m2 : String, m1 ≠ "" → m2 ≠ "" →
      b2client_List P h c pre m1 limit = b2client_List P h c pre m2 limit) := by
  refine ⟨?_, ?_, ?_, ?_⟩
  · rw [b2client_List_requests]
    simp [selectCursor]
  · intro stored
    simp [b2client_List, selectCursor]
  · intro marker hm
    rw [b2client_List_requests]
    simp [selectCursor, hm]
  · intro m1 m2 h1 h2
    simp [b2client_List, selectCursor, h1, h2]

theorem List_cursor_selection_witness :
    b2client_List (memProvider sampleBucket) [] ⟨"jfs", some ⟨"a/", "x"⟩⟩ "a/" "a/1.txt" 1 =
      b2client_List (memProvider sampleBucket) [] ⟨"jfs", some ⟨"a/", "x"⟩⟩ "a/" "zzz" 1 :=
  (List_cursor_selection (memProvider sampleBucket) [] ⟨"jfs", some ⟨"a/", "x"⟩⟩ "a/" 1).2.2.2
    "a/1.txt" "zzz" (by decide) (by decide)

/-- C4. Cursor store-back in `List`: after the call the stored cursor is the
next-page cursor of the provider's answer when that answer carries no error or
`io.EOF`, and nil when it carries any other error; the next `List` call with a
non-empty marker hands exactly the stored cursor to the provider. -/
theorem List_cursor_store_back (P : Provider) (h : List Call) (c : b2client)
    (pre marker : String) (limit : Int) :
    let resp := listResponse P h c pre marker limit
    let r := b2client_List P h c pre marker limit
    (resp.err = none ∨ resp.err = some Error.EOF → r.client.cursor = resp.next) ∧
    (∀ e, resp.err = some e → e ≠ Error.EOF → r.client.cursor = none) ∧
    (∀ (pre2 m : String) (limit2 : Int), m ≠ "" →
      listRequests (b2client_List P r.hist r.client pre2 m limit2).hist =
        listRequests r.hist ++ [(int64ToInt (clampLimit limit2), r.client.cursor)]) := by
  intro resp r
  refine ⟨?_, ?_, ?_⟩
  · intro hok
    rcases b2client_List_cases P h c pre marker limit with ⟨_, heq⟩ | ⟨msg, hmsg, _⟩
    · show (b2client_List P h c pre marker limit).client.cursor = _
      rw [heq]
    · rcases hok with hok | hok <;>
        · have : resp.err = some (Error.other msg) := hmsg
          rw [this] at hok
          cases hok
  · intro e he hne
    rcases b2client_List_cases P h c pre marker limit with ⟨hok, _⟩ | ⟨msg, _, heq⟩
    · have hok2 : resp.err = none ∨ resp.err = some Error.EOF := hok
      rcases hok2 with hok2 | hok2
      · rw [hok2] at he; cases he
      · rw [hok2] at he; cases he; exact absurd rfl hne
    · show (b2client_List P h c pre marker limit).client.cursor = _
      rw [heq]
  · intro pre2 m limit2 hm
    rw [b2client_List_requests]
    simp [selectCursor, hm]

theorem List_cursor_store_back_witness :
    (b2client_List (memProvider sampleBucket) [] ⟨"jfs", none⟩ "a/" "" 1).client.cursor =
      some ⟨"a/", "x"⟩ :=
  (List_cursor_store_back (memProvider sampleBucket) [] ⟨"jfs", none⟩ "a/" "" 1).1
    (Or.inl (by decide))

/-- C5. End-of-listing is absorbed: `List` returns an error exactly when the
provider's answer carries an error other than `io.EOF`, and then it returns that
error; when the answer carries `io.EOF` (or no error) `List` returns the page
built from the answer's entries, one slot per entry. -/
theorem List_absorbs_EOF (P : Provider) (h : List Call) (c : b2client)
    (pre marker : String) (limit : Int) :
    let resp := listResponse P h c pre marker limit
    let r := b2client_List P h c pre marker limit
    ((∃ e, r.ret = .error e) ↔ (∃ e, resp.err = some e ∧ e ≠ Error.EOF)) ∧
    (∀ e, resp.err = some e → e ≠ Error.EOF → r.ret = .error e) ∧
    (resp.err = some Error.EOF ∨ resp.err = none →
      ∃ page, r.ret = .ok page ∧ page.length = resp.objects.length ∧
        page = (resolveEntries P (h ++ [Call.listCurrentObjects (int64ToInt (clampLimit limit))
          (selectCursor c pre marker)]) resp.objects).1) := by
  intro resp r
  rcases b2client_List_cases P h c pre marker limit with ⟨hok, heq⟩ | ⟨msg, hmsg, heq⟩
  · have hok2 : resp.err = none ∨ resp.err = some Error.EOF := hok
    have hr : r.ret = .ok (resolveEntries P (h ++ [Call.listCurrentObjects
        (int64ToInt (clampLimit limit)) (selectCursor c pre marker)]) resp.objects).1 := by
      show (b2client_List P h c pre marker limit).ret = _
      rw [heq]
    refine ⟨⟨?_, ?_⟩, ?_, ?_⟩
    · rintro ⟨e, he⟩
      rw [hr] at he
      cases he
    · rintro ⟨e, he, hne⟩
      rcases hok2 with h2 | h2
      · rw [h2] at he; cases he
      · rw [h2] at he; cases he; exact absurd rfl hne
    · intro e he hne
      rcases hok2 with h2 | h2
      · rw [h2] at he; cases he
      · rw [h2] at he; cases he; exact absurd rfl hne
    · intro _
      exact ⟨_, hr, resolveEntries_length _ _ _, rfl⟩
  · have hmsg2 : resp.err = some (Error.other msg) := hmsg
    have hr : r.ret = .error (Error.other msg) := by
      show (b2client_List P h c pre marker limit).ret = _
      rw [heq]
    refine ⟨⟨fun _ => ⟨_, hmsg2, by simp⟩, fun _ => ⟨_, hr⟩⟩, ?_, ?_⟩
    · intro e he _
      rw [hmsg2] at he
      cases he
      exact hr
    · intro hn
      rcases hn with hn | hn <;>
        · rw [hmsg2] at hn
          cases hn

theorem List_absorbs_EOF_witness :
    ∃ page, (b2client_List flakyProvider [] ⟨"jfs", none⟩ "a/" "" 10).ret = .ok page ∧
      page.length = (listResponse flakyProvider [] ⟨"jfs", none⟩ "a/" "" 10).objects.length ∧
      page = (resolveEntries flakyProvider ([] ++ [Call.listCurrentObjects
        (int64ToInt (clampLimit 10)) (selectCursor ⟨"jfs", none⟩ "a/" "")])
        (listResponse flakyProvider [] ⟨"jfs", none⟩ "a/" "" 10).objects).1 :=
  (List_absorbs_EOF flakyProvider [] ⟨"jfs", none⟩ "a/" "" 10).2.2 (Or.inl (by decide))

/-- C6. Limit clamp in `List`: for every 64-bit `limit` the count of the one
listing request is `min limit 1000`; if the provider answers with at most that
many entries, a returned page has at most `min limit 1000` slots, hence at most
1000. -/
theorem List_limit_clamp (P : Provider) (h : List Call) (c : b2client)
    (pre marker : String) (limit : Int) (hlo : -2 ^ 63 ≤ limit) (hhi : limit < 2 ^ 63) :
    let r := b2client_List P h c pre marker limit
    listRequests r.hist = listRequests h ++ [(min limit 1000, selectCursor c pre marker)] ∧
    (∀ page, r.ret = .ok page →
      ((P.ListCurrentObjects h (min limit 1000) (selectCursor c pre marker)).objects.length : Int)
        ≤ min limit 1000 →
      (page.length : Int) ≤ min limit 1000 ∧ page.length ≤ 1000) := by
  intro r
  have hcnt : int64ToInt (clampLimit limit) = min limit 1000 := by
    rw [clampLimit_eq_min]
    exact int64ToInt_eq _ (by omega) (by omega)
  refine ⟨?_, ?_⟩
  · show listRequests (b2client_List P h c pre marker limit).hist = _
    rw [b2client_List_requests, hcnt]
  · intro page hpage hle
    have hresp : listResponse P h c pre marker limit =
        P.ListCurrentObjects h (min limit 1000) (selectCursor c pre marker) := by
      unfold listResponse
      rw [hcnt]
    have hlen : page.length = (listResponse P h c pre marker limit).objects.length := by
      rcases b2client_List_cases P h c pre marker limit with ⟨_, heq⟩ | ⟨msg, _, heq⟩
      · have hr : r.ret = _ := congrArg Outcome.ret heq
        rw [hpage] at hr
        injection hr with hr
        rw [hr, resolveEntries_length]
      · have hr : r.ret = _ := congrArg Outcome.ret heq
        rw [hpage] at hr
        cases hr
    rw [hresp] at hlen
    rw [hlen]
    omega

theorem List_limit_clamp_witness :
    listRequests (b2client_List (memProvider sampleBucket) [] ⟨"jfs", none⟩ "" "" 5000).hist =
      listRequests [] ++ [(min 5000 1000, selectCursor ⟨"jfs", none⟩ "" "")] :=
  (List_limit_clamp (memProvider sampleBucket) [] ⟨"jfs", none⟩ "" "" 5000
    (by decide) (by decide)).1

/-! ## Descriptors -/

theorem HasSuffix_slash (s : String) :
    HasSuffix s "/" = true ↔ ∃ t : List Char, s.data = t ++ ['/'] := by
  have hone : ("/" : String).data = ['/'] := rfl
  unfold HasSuffix
  rw [hone]
  constructor
  · intro hs
    simp only [List.length_singleton, Bool.and_eq_true, decide_eq_true_eq, beq_iff_eq] at hs
    refine ⟨s.data.take (s.data.length - 1), ?_⟩
    rw [← hs.2, List.take_append_drop]
  · rintro ⟨t, ht⟩
    rw [ht]
    simp

theorem resolveEntries_getElem (P : Provider) (os : List B2Object) (h : List Call) (i : Nat)
    (e : B2Object) (he : os[i]? = some e) :
    (resolveEntries P h os).1[i]? =
      some (match P.Attrs (h ++ (os.take i).map (fun o => Call.attrs o.name)) e.name with
        | .ok attr => some (mkObj attr)
        | .error _ => none) := by
  induction os generalizing h i with
  | nil => simp at he
  | cons o os ih =>
    cases i with
    | zero =>
      simp only [List.getElem?_cons_zero, Option.some.injEq] at he
      subst he
      simp [resolveEntries]
    | succ i =>
      simp only [List.getElem?_cons_succ] at he
      have := ih (h ++ [Call.attrs o.name]) i he
      simp only [resolveEntries, List.getElem?_cons_succ, this, List.take_succ_cons,
        List.map_cons, List.append_assoc, List.singleton_append]

/-- C7. Directory-flag consistency: the descriptor `Head` returns and every
descriptor in a page of `List` carries the name, size and upload timestamp of
the attributes the provider reported for that entry, and its `isDir` is
`HasSuffix` of that name and `"/"`, which holds exactly when the name ends with
the character `/`; both paths build the descriptor by the same rule. Conversely,
whenever the provider reports attributes, `Head` returns that descriptor, and a
`List` call whose listing request does not fail returns a page with that
descriptor in the slot of the entry. -/
theorem descriptor_isDir_consistent (P : Provider) (h : List Call) (c : b2client) :
    (∀ key o, (b2client_Head P h c key).ret = .ok o →
      ∃ attr, P.Attrs h key = .ok attr ∧
        o = some ⟨attr.Name, attr.Size, attr.UploadTimestamp, HasSuffix attr.Name "/"⟩) ∧
    (∀ (pre marker : String) (limit : Int) (page : List Object) (i : Nat) (d : obj),
      (b2client_List P h c pre marker limit).ret = .ok page → page[i]? = some (some d) →
      ∃ e attr, (listResponse P h c pre marker limit).objects[i]? = some e ∧
        P.Attrs (h ++ [Call.listCurrentObjects (int64ToInt (clampLimit limit))
            (selectCursor c pre marker)] ++
          ((listResponse P h c pre marker limit).objects.take i).map
            (fun o => Call.attrs o.name)) e.name = .ok attr ∧
        d = ⟨attr.Name, attr.Size, attr.UploadTimestamp, HasSuffix attr.Name "/"⟩) ∧
    (∀ attr : Attrs, (mkObj attr).isDir = true ↔
      ∃ t : List Char, (mkObj attr).key.data = t ++ ['/']) ∧
    (∀ key attr, P.Attrs h key = .ok attr →
      (b2client_Head P h c key).ret =
        .ok (some ⟨attr.Name, attr.Size, attr.UploadTimestamp, HasSuffix attr.Name "/"⟩)) ∧
    (∀ (pre marker : String) (limit : Int) (i : Nat) (e : B2Object) (attr : Attrs),
      ((listResponse P h c pre marker limit).err = none ∨
        (listResponse P h c pre marker limit).err = some Error.EOF) →
      (listResponse P h c pre marker limit).objects[i]? = some e →
      P.Attrs (h ++ [Call.listCurrentObjects (int64ToInt (clampLimit limit))
            (selectCursor c pre marker)] ++
          ((listResponse P h c pre marker limit).objects.take i).map
            (fun o => Call.attrs o.name)) e.name = .ok attr →
      ∃ page, (b2client_List P h c pre marker limit).ret = .ok page ∧
        page.length = (listResponse P h c pre marker limit).objects.length ∧
        page[i]? =
          some (some ⟨attr.Name, attr.Size, attr.UploadTimestamp, HasSuffix attr.Name "/"⟩)) := by
  refine ⟨?_, ?_, ?_, ?_, ?_⟩
  · intro key o ho
    unfold b2client_Head at ho
    simp only [] at ho
    cases hA : P.Attrs h key with
    | error err => rw [hA] at ho; cases ho
    | ok attr =>
      rw [hA] at ho
      injection ho with ho
      exact ⟨attr, rfl, ho.symm⟩
  · intro pre marker limit page i d hpage hd
    rcases b2client_List_cases P h c pre marker limit with ⟨_, heq⟩ | ⟨msg, _, heq⟩
    · rw [heq] at hpage
      injection hpage with hpage
      subst hpage
      have hlt : i < (listResponse P h c pre marker limit).objects.length := by
        have := (List.getElem?_eq_some_iff.1 hd).1
        rwa [resolveEntries_length] at this
      have he := List.getElem?_eq_getElem hlt
      rw [resolveEntries_getElem P _ _ i _ he] at hd
      refine ⟨(listResponse P h c pre marker limit).objects[i], ?_⟩
      cases hA : P.Attrs (h ++ [Call.listCurrentObjects (int64ToInt (clampLimit limit))
            (selectCursor c pre marker)] ++
          ((listResponse P h c pre marker limit).objects.take i).map
            (fun o => Call.attrs o.name))
          ((listResponse P h c pre marker limit).objects[i]).name with
      | error err =>
        rw [hA] at hd
        simp at hd
      | ok attr =>
        rw [hA] at hd
        simp only [Option.some.injEq] at hd
        exact ⟨attr, he, rfl, hd.symm⟩
    · rw [heq] at hpage
      cases hpage
  · intro attr
    exact HasSuffix_slash attr.Name
  · intro key attr hA
    simp only [b2client_Head, hA, mkObj]
  · intro pre marker limit i e attr herr he hA
    rcases b2client_List_cases P h c pre marker limit with ⟨_, heq⟩ | ⟨msg, hmsg, _⟩
    · refine ⟨_, congrArg Outcome.ret heq, resolveEntries_length _ _ _, ?_⟩
      rw [resolveEntries_getElem P _ _ i e he, hA]
      rfl
    · rcases herr with herr | herr <;>
        · rw [herr] at hmsg
          cases hmsg

theorem descriptor_isDir_consistent_witness :
    (b2client_Head (memProvider sampleBucket) [] ⟨"jfs", none⟩ "d/").ret =
        .ok (some ⟨"d/", 0, 13, true⟩) ∧
      ∃ page, (b2client_List (memProvider sampleBucket) [] ⟨"jfs", none⟩ "" "" 10).ret =
          .ok page ∧
        page.length =
          (listResponse (memProvider sampleBucket) [] ⟨"jfs", none⟩ "" "" 10).objects.length ∧
        page[3]? = some (some ⟨"d/", 0, 13, true⟩) :=
  have w := descriptor_isDir_consistent (memProvider sampleBucket) [] ⟨"jfs", none⟩
  ⟨w.2.2.2.1 "d/" ⟨"d/", 0, 13⟩ (by decide),
    w.2.2.2.2 "" "" 10 3 ⟨"d/"⟩ ⟨"d/", 0, 13⟩ (Or.inr (by decide)) (by decide) (by decide)⟩

/-! ## Put and Copy -/

/-- C9. The outcome of `Put`: when copying the source into the write stream
fails, `Put` closes the write stream and returns the copy's error, whatever
closing returns; when copying succeeds, `Put` returns the result of closing the
write stream. In both cases the provider sees: new writer, copy, close. -/
theorem Put_outcome (P : Provider) (h : List Call) (c : b2client) (key : String)
    (data : Reader) :
    (b2client_Put P h c key data).hist =
      h ++ [Call.newWriter key, Call.readFrom key data, Call.closeWriter key] ∧
    (∀ err, P.ReadFrom (h ++ [Call.newWriter key]) key data = some err →
      (b2client_Put P h c key data).ret = some err ∧
      ∀ closing : List Call → String → Option Error,
        (b2client_Put { P with CloseWriter := closing } h c key data).ret = some err) ∧
    (P.ReadFrom (h ++ [Call.newWriter key]) key data = none →
      (b2client_Put P h c key data).ret =
        P.CloseWriter (h ++ [Call.newWriter key, Call.readFrom key data]) key) := by
  refine ⟨?_, ?_, ?_⟩
  · unfold b2client_Put
    simp only []
    split <;> simp
  · intro err herr
    constructor
    · unfold b2client_Put
      simp only [herr]
    · intro closing
      unfold b2client_Put
      simp only [herr]
  · intro hnone
    unfold b2client_Put
    simp only [hnone, List.append_assoc, List.singleton_append]

theorem Put_outcome_witness :
    (b2client_Put flakyProvider [] ⟨"jfs", none⟩ "k" (Reader.source 0)).ret =
      some (Error.other "read failed") :=
  ((Put_outcome flakyProvider [] ⟨"jfs", none⟩ "k" (Reader.source 0)).2.1
    (Error.other "read failed") (by decide)).1

/-- C8. Copy of a missing source: when the attribute probe of `src` fails,
`Copy` returns the probe's error, the only provider call it issues is that
probe (no write), the adapter is unchanged, and every observation of the
provider that attribute probes do not affect (the bucket contents) is unchanged;
when the probe succeeds, `Copy` is `Put(dst, Get(src, 0, -1))` followed by the
close of the source stream, whatever `Put` returns. -/
theorem Copy_missing_source (P : Provider) (h : List Call) (c : b2client) (dst src : String) :
    (∀ err, P.Attrs h src = .error err →
      (b2client_Copy P h c dst src).ret = some err ∧
      (b2client_Copy P h c dst src).hist = h ++ [Call.attrs src] ∧
      (b2client_Copy P h c dst src).hist.filter Call.isWrite = h.filter Call.isWrite ∧
      (b2client_Copy P h c dst src).client = c ∧
      ∀ (β : Type) (contents : List Call → β),
        (∀ l name, contents (l ++ [Call.attrs name]) = contents l) →
        contents (b2client_Copy P h c dst src).hist = contents h) ∧
    (∀ attr, P.Attrs h src = .ok attr →
      (b2client_Get P h c src 0 (-1)).ret = .ok (Reader.range src 0 (-1)) ∧
      (b2client_Copy P h c dst src).ret =
        (b2client_Put P (b2client_Get P h c src 0 (-1)).hist (b2client_Get P h c src 0 (-1)).client
          dst (Reader.range src 0 (-1))).ret ∧
      (b2client_Copy P h c dst src).hist =
        (b2client_Put P (b2client_Get P h c src 0 (-1)).hist (b2client_Get P h c src 0 (-1)).client
          dst (Reader.range src 0 (-1))).hist ++ [Call.closeReader (Reader.range src 0 (-1))]) := by
  constructor
  · intro err herr
    have hc : b2client_Copy P h c dst src = ⟨some err, c, h ++ [Call.attrs src]⟩ := by
      simp [b2client_Copy, b2client_Get, herr]
    rw [hc]
    refine ⟨rfl, rfl, ?_, rfl, ?_⟩
    · simp [List.filter_append, Call.isWrite]
    · intro β contents hprobe
      exact hprobe h src
  · intro attr hattr
    have hg : b2client_Get P h c src 0 (-1) =
        ⟨.ok (Reader.range src 0 (-1)), c,
          h ++ [Call.attrs src] ++ [Call.newRangeReader src 0 (-1)]⟩ := by
      simp [b2client_Get, hattr]
    refine ⟨by rw [hg], ?_, ?_⟩
    · simp only [b2client_Copy, hg]
    · simp only [b2client_Copy, hg]

theorem Copy_missing_source_witness :
    (b2client_Copy (memProvider sampleBucket) [] ⟨"jfs", none⟩ "b/1.txt" "a/9.txt").ret =
        some (Error.other "not found") ∧
      (b2client_Copy (memProvider sampleBucket) [] ⟨"jfs", none⟩ "b/1.txt" "a/9.txt").hist =
        [] ++ [Call.attrs "a/9.txt"] :=
  have w := (Copy_missing_source (memProvider sampleBucket) [] ⟨"jfs", none⟩ "b/1.txt"
    "a/9.txt").1 (Error.other "not found") (by decide)
  ⟨w.1, w.2.1⟩

/-! ## Construction -/

theorem splitLoop_dot (s cur : List Char) :
    ∃ rest, splitLoop ['.'] 0 cur s =
      (cur.reverse ++ s.takeWhile (fun ch => ch != '.')) :: rest := by
  induction s generalizing cur with
  | nil => exact ⟨[], by simp [splitLoop]⟩
  | cons c t ih =>
    by_cases hc : c = '.'
    · subst hc
      exact ⟨splitLoop ['.'] 0 [] t, by simp [splitLoop, List.isPrefixOf]⟩
    · obtain ⟨rest, hrest⟩ := ih (c :: cur)
      refine ⟨rest, ?_⟩
      have hne : ('.' == c) = false := by
        simp only [beq_eq_false_iff_ne, ne_eq]
        exact fun h => hc h.symm
      have hne2 : (c != '.') = true := by simp [hc]
      simp only [splitLoop, List.isPrefixOf, hne, Bool.false_and, Bool.false_eq_true,
        if_false, hrest, List.reverse_cons, List.append_assoc, List.singleton_append,
        List.takeWhile_cons, hne2, if_true]

theorem Split_dot (host : String) : ∃ rest, Split host "." = firstLabel host :: rest := by
  obtain ⟨rest, hrest⟩ := splitLoop_dot host.data []
  have hone : (".": String).data = ['.'] := rfl
  refine ⟨rest.map String.mk, ?_⟩
  simp [Split, hone, hrest, firstLabel]

theorem firstLabel_spec (host : String) :
    (firstLabel host).data <+: host.data ∧ '.' ∉ (firstLabel host).data ∧
    ((firstLabel host).data = host.data ∨
      ∃ tl, host.data = (firstLabel host).data ++ '.' :: tl) := by
  have hd : (firstLabel host).data = host.data.takeWhile (fun ch => ch != '.') := rfl
  rw [hd]
  refine ⟨List.takeWhile_prefix _, ?_, ?_⟩
  · intro hmem
    have := List.mem_takeWhile_imp hmem
    simp at this
  · generalize host.data = l
    induction l with
    | nil => left; rfl
    | cons c t ih =>
      by_cases hc : c = '.'
      · right
        subst hc
        exact ⟨t, by simp⟩
      · have hne2 : (c != '.') = true := by simp [hc]
        rcases ih with ih | ⟨tl, htl⟩
        · left
          simp only [List.takeWhile_cons, hne2, if_true, ih]
        · right
          refine ⟨tl, ?_⟩
          simp only [List.takeWhile_cons, hne2, if_true, List.cons_append]
          rw [← htl]

/-- C10. Bucket-name derivation in `newB2`: when the endpoint does not parse,
`newB2` returns the `Invalid endpoint` error and issues no provider call; when
it parses, the split of the host on `"."` is non-empty and starts with the first
label of the host (its longest prefix without a dot: the whole host when it has
no dot, empty when the host is empty or starts with a dot), indexing it never
panics, and that label is the bucket name of every bucket call and of the
adapter that is returned: after the client is created `newB2` opens the bucket
of that name and returns the adapter bound to it, or, when opening fails,
creates the bucket of that name as `allPrivate` and returns the adapter bound
to it; a failure to create the client or the bucket is returned as an error. -/
theorem newB2_bucket_name (parse : String → Except Error URL) (P : Provider) (h : List Call)
    (endpoint account key : String) :
    match parse endpoint with
    | .error err =>
      newB2 parse P h endpoint account key =
        (.error (.other ("Invalid endpoint: " ++ endpoint ++ ", error: " ++ err.text)), h)
    | .ok uri =>
      (∃ rest, Split uri.Host "." = firstLabel uri.Host :: rest) ∧
      (newB2 parse P h endpoint account key).1 ≠ Built.indexPanic ∧
      (∀ err, P.NewClient h account key = some err →
        newB2 parse P h endpoint account key =
          (.error (.other ("Failed to create client: " ++ err.text)),
            h ++ [Call.newClient account key])) ∧
      (P.NewClient h account key = none →
        P.Bucket (h ++ [Call.newClient account key]) (firstLabel uri.Host) = none →
        newB2 parse P h endpoint account key =
          (.ok ⟨firstLabel uri.Host, none⟩,
            h ++ [Call.newClient account key] ++ [Call.bucket (firstLabel uri.Host)])) ∧
      (∀ e, P.NewClient h account key = none →
        P.Bucket (h ++ [Call.newClient account key]) (firstLabel uri.Host) = some e →
        P.NewBucket (h ++ [Call.newClient account key] ++ [Call.bucket (firstLabel uri.Host)])
          (firstLabel uri.Host) "allPrivate" = none →
        newB2 parse P h endpoint account key =
          (.ok ⟨firstLabel uri.Host, none⟩,
            h ++ [Call.newClient account key] ++ [Call.bucket (firstLabel uri.Host)] ++
              [Call.newBucket (firstLabel uri.Host) "allPrivate"])) ∧
      (∀ e err, P.NewClient h account key = none →
        P.Bucket (h ++ [Call.newClient account key]) (firstLabel uri.Host) = some e →
        P.NewBucket (h ++ [Call.newClient account key] ++ [Call.bucket (firstLabel uri.Host)])
          (firstLabel uri.Host) "allPrivate" = some err →
        newB2 parse P h endpoint account key =
          (.error (.other ("Failed to create bucket: " ++ err.text)),
            h ++ [Call.newClient account key] ++ [Call.bucket (firstLabel uri.Host)] ++
              [Call.newBucket (firstLabel uri.Host) "allPrivate"])) ∧
      (∀ cl, (newB2 parse P h endpoint account key).1 = .ok cl →
        cl.bucket = firstLabel uri.Host) ∧
      (∃ calls, (newB2 parse P h endpoint account key).2 =
          h ++ Call.newClient account key :: calls ∧
        ∀ call ∈ calls, call = Call.bucket (firstLabel uri.Host) ∨
          call = Call.newBucket (firstLabel uri.Host) "allPrivate") ∧
      ((firstLabel uri.Host).data <+: uri.Host.data ∧ '.' ∉ (firstLabel uri.Host).data ∧
        ((firstLabel uri.Host).data = uri.Host.data ∨
          ∃ tl, uri.Host.data = (firstLabel uri.Host).data ++ '.' :: tl)) ∧
      ('.' ∉ uri.Host.data → firstLabel uri.Host = uri.Host) ∧
      ((uri.Host.data = [] ∨ ∃ tl, uri.Host.data = '.' :: tl) → firstLabel uri.Host = "") := by
  cases hp : parse endpoint with
  | error err => simp [newB2, hp]
  | ok uri =>
    obtain ⟨rest, hrest⟩ := Split_dot uri.Host
    refine ⟨⟨rest, hrest⟩, ?_, ?_, ?_, ?_, ?_, ?_, ?_, firstLabel_spec uri.Host, ?_, ?_⟩
    · simp only [newB2, hp, hrest]
      split
      · simp
      · split
        · simp
        · split <;> simp
    · intro err hc
      simp only [newB2, hp, hrest, hc]
    · intro hc hb
      simp only [newB2, hp, hrest, hc, hb]
    · intro e hc hb hn
      simp only [newB2, hp, hrest, hc, hb, hn]
    · intro e err hc hb hn
      simp only [newB2, hp, hrest, hc, hb, hn]
    · simp only [newB2, hp, hrest]
      split
      · simp
      · split
        · simp
        · split <;> simp
    · simp only [newB2, hp, hrest]
      split
      · exact ⟨[], by simp⟩
      · split
        · exact ⟨[Call.bucket (firstLabel uri.Host)], by simp⟩
        · split <;>
          exact ⟨[Call.bucket (firstLabel uri.Host),
            Call.newBucket (firstLabel uri.Host) "allPrivate"], by simp⟩
    · intro hno
      have : (firstLabel uri.Host).data = uri.Host.data := by
        show uri.Host.data.takeWhile (fun ch => ch != '.') = uri.Host.data
        rw [List.takeWhile_eq_self_iff]
        intro ch hch
        have : ch ≠ '.' := fun hh => hno (hh ▸ hch)
        simp [this]
      exact String.ext this
    · intro hstart
      apply String.ext
      show uri.Host.data.takeWhile (fun ch => ch != '.') = []
      rcases hstart with h0 | ⟨tl, htl⟩
      · rw [h0]; rfl
      · rw [htl]; simp

theorem newB2_bucket_name_witness :
    newB2 sampleParse flakyProvider [] "https://jfs.s3.example.com/" "acc" "key" =
        (.ok ⟨"jfs", none⟩,
          [Call.newClient "acc" "key", Call.bucket "jfs", Call.newBucket "jfs" "allPrivate"]) ∧
      newB2 sampleParse (memProvider sampleBucket) [] "https://jfs.s3.example.com/" "acc" "key" =
        (.ok ⟨"jfs", none⟩, [Call.newClient "acc" "key", Call.bucket "jfs"]) :=
  ⟨(newB2_bucket_name sampleParse flakyProvider [] "https://jfs.s3.example.com/" "acc"
      "key").2.2.2.2.1 (Error.other "no such bucket") (by decide) (by decide) (by decide),
    (newB2_bucket_name sampleParse (memProvider sampleBucket) [] "https://jfs.s3.example.com/"
      "acc" "key").2.2.2.1 (by decide) (by decide)⟩

/-! ## Pages -/

/-- C1. A listing whose second entry fails to resolve: `List` returns no error
and a page with one slot per raw entry, the slot of the failed entry holding the
nil `Object`, so the page is longer than the number of resolved entries. -/
theorem List_page_keeps_failed_slot :
    (b2client_List flakyProvider [] ⟨"jfs", none⟩ "a/" "" 10).ret =
        .ok [some ⟨"a/1", 3, 7, false⟩, none] ∧
      (listResponse flakyProvider [] ⟨"jfs", none⟩ "a/" "" 10).objects = [⟨"a/1"⟩, ⟨"a/2"⟩] ∧
      flakyProvider.Attrs ([Call.listCurrentObjects 10 (some ⟨"a/", ""⟩), Call.attrs "a/1"])
        "a/2" = .error (Error.other "timeout") := by
  decide

/-- A resumed `List` call on an adapter whose stored cursor is nil, against the
in-memory provider over `sampleBucket`: the nil cursor goes to the provider and
the page is the start of the whole bucket, whatever the prefix argument. -/
theorem b2client_List_resume_nil (h : List Call) (marker : String) (hm : marker ≠ "") :
    (b2client_List (memProvider sampleBucket) h ⟨"jfs", none⟩ "a/" marker 10).ret =
        .ok (sampleBucket.map (fun a => some (mkObj a))) ∧
      (b2client_List (memProvider sampleBucket) h ⟨"jfs", none⟩ "a/" marker 10).client =
        ⟨"jfs", none⟩ := by
  have hsel : selectCursor ⟨"jfs", none⟩ "a/" marker = none := by
    simp [selectCursor, hm]
  constructor
  · simp only [b2client_List, hsel]
    rfl
  · simp only [b2client_List, hsel]
    rfl

theorem listAll_resume_nil (fuel : Nat) :
    ∀ (h : List Call) (marker : String), marker ≠ "" →
      listAll (memProvider sampleBucket) lastKey "a/" 10 fuel h ⟨"jfs", none⟩ marker = none := by
  induction fuel with
  | zero => intro h marker _; rfl
  | succ fuel ih =>
    intro h marker hm
    obtain ⟨hret, hclient⟩ := b2client_List_resume_nil h marker hm
    have hnext := ih (b2client_List (memProvider sampleBucket) h ⟨"jfs", none⟩ "a/" marker 10).hist
      (lastKey (sampleBucket.map (fun a => some (mkObj a)))) (by decide)
    have hempty : (sampleBucket.map (fun a => some (mkObj a))).isEmpty = false := rfl
    simp only [listAll, hret, hclient, hempty, Bool.false_eq_true, if_false, hnext,
      Option.map_none']

/-- C2. Listing to the end of a prefix against a provider that ends a listing
with a nil cursor and `io.EOF`: `List("a/", "", 10)` returns the two objects
under `a/` and stores the nil cursor; the resumed call hands that nil cursor to
the provider and returns the whole bucket from the start, so the objects under
`a/` come again together with objects outside the prefix, no page is ever empty
and the caller's loop does not return for any amount of fuel. -/
theorem List_resume_after_last_page_restarts :
    (b2client_List (memProvider sampleBucket) [] ⟨"jfs", none⟩ "a/" "" 10).ret =
        .ok [some ⟨"a/1.txt", 3, 10, false⟩, some ⟨"a/2.txt", 5, 11, false⟩] ∧
      (listResponse (memProvider sampleBucket) [] ⟨"jfs", none⟩ "a/" "" 10).next = none ∧
      (listResponse (memProvider sampleBucket) [] ⟨"jfs", none⟩ "a/" "" 10).err =
        some Error.EOF ∧
      (b2client_List (memProvider sampleBucket) [] ⟨"jfs", none⟩ "a/" "" 10).client.cursor =
        none ∧
      (b2client_List (memProvider sampleBucket)
          (b2client_List (memProvider sampleBucket) [] ⟨"jfs", none⟩ "a/" "" 10).hist
          (b2client_List (memProvider sampleBucket) [] ⟨"jfs", none⟩ "a/" "" 10).client
          "a/" "a/2.txt" 10).ret =
        .ok [some ⟨"a/1.txt", 3, 10, false⟩, some ⟨"a/2.txt", 5, 11, false⟩,
          some ⟨"b/1.txt", 1, 12, false⟩, some ⟨"d/", 0, 13, true⟩] ∧
      ∀ fuel, listAll (memProvider sampleBucket) lastKey "a/" 10 fuel [] ⟨"jfs", none⟩ "" =
        none := by
  refine ⟨by decide, by decide, by decide, by decide, by decide, ?_⟩
  intro fuel
  cases fuel with
  | zero => rfl
  | succ fuel =>
    have hret : (b2client_List (memProvider sampleBucket) [] ⟨"jfs", none⟩ "a/" "" 10).ret =
        .ok [some ⟨"a/1.txt", 3, 10, false⟩, some ⟨"a/2.txt", 5, 11, false⟩] := by decide
    have hclient : (b2client_List (memProvider sampleBucket) [] ⟨"jfs", none⟩ "a/" "" 10).client =
        ⟨"jfs", none⟩ := by decide
    have hnext := listAll_resume_nil fuel
      (b2client_List (memProvider sampleBucket) [] ⟨"jfs", none⟩ "a/" "" 10).hist
      (lastKey [some ⟨"a/1.txt", 3, 10, false⟩, some ⟨"a/2.txt", 5, 11, false⟩]) (by decide)
    simp only [listAll, hret, hclient, List.isEmpty_cons, Bool.false_eq_true, if_false, hnext,
      Option.map_none']

end object
